import Mathlib

/-
Verification of the undo/redo history mechanism and the fixed-aspect
placement / coordinate-mapping utilities of the libmypaint-pyqt5 demo
application, as a shallow embedding of the Python source.

Sources embedded:
  * pydemo/util/canvas.py            (class Canvas: undo/redo state machine)
  * pydemo/util/get_scaled_placement.py
  * pydemo/util/fixed_aspect_graphics_view.py (coordinate mapping)

Machine integers are modelled as Int/Nat, Python float arithmetic on
pixel geometry as exact rationals, and Python exceptions as explicit
error results.
-/

namespace PyDemo

/-- Truncation of a rational toward zero, the behaviour of Python's
built-in int() conversion applied to a numeric value. -/
def pyInt (q : ℚ) : ℤ := if q < 0 then -⌊-q⌋ else ⌊q⌋

/-- Integer-valued rectangle, modelling PyQt5's QRect (x, y, width, height). -/
structure QRectI where
  x : ℤ
  y : ℤ
  w : ℤ
  h : ℤ
deriving DecidableEq, Repr

/-- Integer-valued size, modelling PyQt5's QSize(width, height). -/
structure QSizeI where
  w : ℤ
  h : ℤ
deriving DecidableEq, Repr

/-- Embedding of get_scaled_placement (pydemo/util/get_scaled_placement.py,
lines 22-30): `container_size = container_rect.size() - QSize(2*margin, 2*margin)`,
`scale = min(csw / max(inner.w, 1), csh / max(inner.h, 1))`, x and y start at
the container corner plus the margin and gain a centering offset on each axis
whose scaled content is strictly smaller than the margin-reduced container;
the QRect constructor applies int() to each float component. -/
def get_scaled_placement (container_rect : QRectI) (inner_size : QSizeI)
    (margin_width : ℤ) : QRectI :=
  let csw : ℚ := ((container_rect.w - 2 * margin_width : ℤ) : ℚ)
  let csh : ℚ := ((container_rect.h - 2 * margin_width : ℤ) : ℚ)
  let scale : ℚ :=
    min (csw / ((max inner_size.w 1 : ℤ) : ℚ)) (csh / ((max inner_size.h 1 : ℤ) : ℚ))
  let x : ℚ := ((container_rect.x + margin_width : ℤ) : ℚ) +
    (if (inner_size.w : ℚ) * scale < csw then (csw - (inner_size.w : ℚ) * scale) / 2 else 0)
  let y : ℚ := ((container_rect.y + margin_width : ℤ) : ℚ) +
    (if (inner_size.h : ℚ) * scale < csh then (csh - (inner_size.h : ℚ) * scale) / 2 else 0)
  ⟨pyInt x, pyInt y, pyInt ((inner_size.w : ℚ) * scale), pyInt ((inner_size.h : ℚ) * scale)⟩

/-- The rectangle `inner` lies fully inside the rectangle `outer`, with
nonnegative extent. -/
def rect_in_rect (inner outer : QRectI) : Prop :=
  outer.x ≤ inner.x ∧ outer.y ≤ inner.y ∧
  inner.x + inner.w ≤ outer.x + outer.w ∧ inner.y + inner.h ≤ outer.y + outer.h ∧
  0 ≤ inner.w ∧ 0 ≤ inner.h

instance (inner outer : QRectI) : Decidable (rect_in_rect inner outer) := by
  unfold rect_in_rect
  infer_instance

/-- pyInt agrees with the floor on nonnegative rationals. -/
lemma pyInt_of_nonneg {q : ℚ} (h : 0 ≤ q) : pyInt q = ⌊q⌋ := by
  simp [pyInt, not_lt.mpr h]

/-- pyInt of a nonnegative rational is nonnegative. -/
lemma pyInt_nonneg {q : ℚ} (h : 0 ≤ q) : 0 ≤ pyInt q := by
  rw [pyInt_of_nonneg h]
  exact Int.floor_nonneg.mpr h

/-- pyInt never exceeds its nonnegative argument. -/
lemma pyInt_le_self {q : ℚ} (h : 0 ≤ q) : (pyInt q : ℚ) ≤ q := by
  rw [pyInt_of_nonneg h]
  exact Int.floor_le q

/-- pyInt is bounded below by the floor: truncation toward zero never
rounds further down than rounding toward negative infinity. -/
lemma floor_le_pyInt (q : ℚ) : ⌊q⌋ ≤ pyInt q := by
  unfold pyInt
  split
  · rw [Int.floor_neg]
    simp only [neg_neg]
    exact Int.floor_le_ceil q
  · exact le_refl _

/-- pyInt is strictly below its argument plus one. -/
lemma pyInt_lt_add_one (q : ℚ) : (pyInt q : ℚ) < q + 1 := by
  unfold pyInt
  split
  · rw [Int.floor_neg]
    simp only [neg_neg]
    exact Int.ceil_lt_add_one q
  · exact lt_of_le_of_lt (Int.floor_le q) (lt_add_one q)

/-- A scaled dimension never exceeds the margin-reduced container dimension:
if s is at most c divided by max(n,1) and n and c are nonnegative, then
n * s is at most c. -/
lemma mul_scale_le {n : ℤ} (hn : 0 ≤ n) {c s : ℚ} (hc : 0 ≤ c)
    (hs : s ≤ c / ((max n 1 : ℤ) : ℚ)) : (n : ℚ) * s ≤ c := by
  rcases eq_or_lt_of_le hn with h0 | hpos
  · rw [← h0]
    simpa using hc
  · have hmax : max n 1 = n := max_eq_left hpos
    rw [hmax] at hs
    have hnq : (0 : ℚ) < (n : ℚ) := by exact_mod_cast hpos
    calc (n : ℚ) * s ≤ (n : ℚ) * (c / (n : ℚ)) :=
          mul_le_mul_of_nonneg_left hs (le_of_lt hnq)
      _ = c := mul_div_cancel₀ c (ne_of_gt hnq)

/-- One axis of the containment argument for get_scaled_placement: with a
nonnegative margin that fits inside the container dimension, the truncated
left edge and extent stay inside the container interval. -/
lemma placement_axis_bound (cx m cw : ℤ) (prod csw : ℚ)
    (hm : 0 ≤ m) (hcsw : csw = ((cw - 2 * m : ℤ) : ℚ))
    (hprod0 : 0 ≤ prod) (hprodle : prod ≤ csw) :
    let xq : ℚ := ((cx + m : ℤ) : ℚ) + (if prod < csw then (csw - prod) / 2 else 0)
    cx ≤ pyInt xq ∧ pyInt xq + pyInt prod ≤ cx + cw ∧ 0 ≤ pyInt prod := by
  intro xq
  have hcsw0 : (0 : ℚ) ≤ csw := le_trans hprod0 hprodle
  have hoff : (0 : ℚ) ≤ (if prod < csw then (csw - prod) / 2 else 0) := by
    split
    · have : (0 : ℚ) ≤ csw - prod := by linarith
      linarith
    · exact le_refl 0
  have hxq_lb : ((cx + m : ℤ) : ℚ) ≤ xq := by
    simp only [xq]
    linarith
  have hleft : cx ≤ pyInt xq := by
    have h1 : (cx + m : ℤ) ≤ ⌊xq⌋ := Int.le_floor.mpr hxq_lb
    have h2 : ⌊xq⌋ ≤ pyInt xq := floor_le_pyInt xq
    omega
  have hsum : xq + prod ≤ ((cx + m : ℤ) : ℚ) + csw := by
    simp only [xq]
    split
    · linarith
    · linarith
  have hW : (pyInt prod : ℚ) ≤ prod := pyInt_le_self hprod0
  have hX : (pyInt xq : ℚ) < xq + 1 := pyInt_lt_add_one xq
  have hmq : (0 : ℚ) ≤ (m : ℚ) := by exact_mod_cast hm
  have hsumq : (pyInt xq : ℚ) + (pyInt prod : ℚ) < ((cx + cw : ℤ) : ℚ) + 1 := by
    have hsub : ((cx + m : ℤ) : ℚ) + csw ≤ ((cx + cw : ℤ) : ℚ) := by
      rw [hcsw]
      push_cast
      linarith
    linarith
  have hright : pyInt xq + pyInt prod ≤ cx + cw := by
    have : ((pyInt xq + pyInt prod : ℤ) : ℚ) < ((cx + cw : ℤ) : ℚ) + 1 := by
      push_cast
      push_cast at hsumq
      linarith
    have hlt : (pyInt xq + pyInt prod : ℤ) < (cx + cw) + 1 := by exact_mod_cast this
    omega
  exact ⟨hleft, hright, pyInt_nonneg hprod0⟩

/-- The general containment fact about get_scaled_placement: for a
nonnegative margin that fits in both container dimensions and nonnegative
content dimensions (zero-area content included), the placed rectangle lies
fully inside the container. -/
lemma get_scaled_placement_contained (container : QRectI) (inner : QSizeI)
    (margin : ℤ) (hm : 0 ≤ margin) (hw : 2 * margin ≤ container.w)
    (hh : 2 * margin ≤ container.h) (hiw : 0 ≤ inner.w) (hih : 0 ≤ inner.h) :
    rect_in_rect (get_scaled_placement container inner margin) container := by
  set csw : ℚ := ((container.w - 2 * margin : ℤ) : ℚ) with hcsw_def
  set csh : ℚ := ((container.h - 2 * margin : ℤ) : ℚ) with hcsh_def
  have hcsw0 : (0 : ℚ) ≤ csw := by
    rw [hcsw_def]
    exact_mod_cast Int.sub_nonneg.mpr hw
  have hcsh0 : (0 : ℚ) ≤ csh := by
    rw [hcsh_def]
    exact_mod_cast Int.sub_nonneg.mpr hh
  set scale : ℚ :=
    min (csw / ((max inner.w 1 : ℤ) : ℚ)) (csh / ((max inner.h 1 : ℤ) : ℚ)) with hscale_def
  have hmaxw : (0 : ℚ) < ((max inner.w 1 : ℤ) : ℚ) := by
    have : (0 : ℤ) < max inner.w 1 := lt_of_lt_of_le one_pos (le_max_right _ _)
    exact_mod_cast this
  have hmaxh : (0 : ℚ) < ((max inner.h 1 : ℤ) : ℚ) := by
    have : (0 : ℤ) < max inner.h 1 := lt_of_lt_of_le one_pos (le_max_right _ _)
    exact_mod_cast this
  have hscale0 : 0 ≤ scale := by
    rw [hscale_def]
    exact le_min (div_nonneg hcsw0 (le_of_lt hmaxw)) (div_nonneg hcsh0 (le_of_lt hmaxh))
  have hiwq : (0 : ℚ) ≤ (inner.w : ℚ) := by exact_mod_cast hiw
  have hihq : (0 : ℚ) ≤ (inner.h : ℚ) := by exact_mod_cast hih
  have hprodw0 : (0 : ℚ) ≤ (inner.w : ℚ) * scale := mul_nonneg hiwq hscale0
  have hprodh0 : (0 : ℚ) ≤ (inner.h : ℚ) * scale := mul_nonneg hihq hscale0
  have hprodwle : (inner.w : ℚ) * scale ≤ csw :=
    mul_scale_le hiw hcsw0 (le_trans (min_le_left _ _) (le_refl _))
  have hprodhle : (inner.h : ℚ) * scale ≤ csh :=
    mul_scale_le hih hcsh0 (min_le_right _ _)
  have hx := placement_axis_bound container.x margin container.w
    ((inner.w : ℚ) * scale) csw hm hcsw_def hprodw0 hprodwle
  have hy := placement_axis_bound container.y margin container.h
    ((inner.h : ℚ) * scale) csh hm hcsh_def hprodh0 hprodhle
  simp only at hx hy
  unfold get_scaled_placement rect_in_rect
  simp only [← hcsw_def, ← hcsh_def, ← hscale_def]
  exact ⟨hx.1, hy.1, hx.2.1, hy.2.1, hx.2.2, hy.2.2⟩

/-- Raster image content, modelling a QImage as pixel dimensions plus a
row-major list of pixel values. Equality of two Img values is the
byte-identical comparison of image contents. -/
structure Img where
  w : ℕ
  h : ℕ
  data : List ℕ
deriving DecidableEq, Repr

/-- The pixel dimensions of an image, modelling QImage.size(). -/
def Img.size (i : Img) : ℕ × ℕ := (i.w, i.h)

/-- Pixel lookup in the row-major data list. -/
def Img.pix (i : Img) (x y : ℕ) : ℕ := i.data.getD (y * i.w + x) 0

/-- Modelled from the spec: QImage.scaled lives in the external Qt library,
not in this repository; the spec only requires a non-destructive rescale of
the snapshot content to fit the target size, embedded here as
nearest-neighbour resampling. No claim depends on the resampled pixel
values. -/
def Img.scaled (i : Img) (s : ℕ × ℕ) : Img :=
  ⟨s.1, s.2, (List.range (s.1 * s.2)).map fun k =>
    i.pix (k % s.1 * i.w / s.1) (k / s.1 * i.h / s.2)⟩

/-- A timestamped image snapshot, embedding Canvas.UndoState
(pydemo/util/canvas.py, lines 24-28). The timestamp records the wall-clock
value datetime.datetime.now().timestamp() supplied at construction. -/
structure UndoState where
  image : Img
  timestamp : ℚ
deriving DecidableEq, Repr

/-- The mutable state of a Canvas relevant to the edit-history machinery:
the current content (reached through the abstract get_qimage/set_image
accessor pair) and the two snapshot stacks, embedding the state
initialised in Canvas.__init__ (pydemo/util/canvas.py, lines 50-51). Stacks
grow at the tail, matching Python list.append/list.pop. -/
structure Canvas where
  image : Img
  undo_stack : List UndoState
  redo_stack : List UndoState
deriving DecidableEq, Repr

/-- Result of a Python method that can raise: either a normal return or an
exception name paired with the object state at the moment of the raise
(side effects performed before the raise persist). -/
inductive PyResult (α : Type) where
  | ok (value : α)
  | raised (exc : String) (state : α)
deriving DecidableEq, Repr

namespace Canvas

/-- Embedding of Canvas.MAX_UNDO (pydemo/util/canvas.py, line 22). -/
def MAX_UNDO : ℕ := 30

/-- Content accessor, the role self.get_qimage() plays for the history
machinery; the .copy() in the source is the identity on immutable values. -/
def get_qimage (c : Canvas) : Img := c.image

/-- Canvas.size(): the current content dimensions. -/
def size (c : Canvas) : ℕ × ℕ := c.image.size

/-- Content mutator, the role self.set_image() plays for the history
machinery: replace the current content, leaving both stacks untouched. -/
def set_image (c : Canvas) (i : Img) : Canvas := { c with image := i }

/-- Embedding of Canvas._save_undo_state (pydemo/util/canvas.py, lines
259-265): push a snapshot of the current content, truncate the undo stack
to its last MAX_UNDO entries when it exceeds the bound, and clear the redo
stack when clear_redo_stack is set. -/
def save_undo_state (c : Canvas) (clear_redo_stack : Bool) (now : ℚ) : Canvas :=
  let stack := c.undo_stack ++ [⟨c.get_qimage, now⟩]
  let stack := if MAX_UNDO < stack.length then stack.drop (stack.length - MAX_UNDO) else stack
  { c with
    undo_stack := stack
    redo_stack := if clear_redo_stack then [] else c.redo_stack }

/-- Embedding of Canvas.undo (pydemo/util/canvas.py, lines 57-66): no-op on
an empty undo stack; otherwise push the current content onto the redo
stack, pop the last undo entry, rescale its image if its size differs from
the canvas size, and install it. -/
def undo (c : Canvas) (now : ℚ) : Canvas :=
  match c.undo_stack.getLast? with
  | none => c
  | some popped =>
    let c1 : Canvas := { c with
      redo_stack := c.redo_stack ++ [⟨c.get_qimage, now⟩]
      undo_stack := c.undo_stack.dropLast }
    let new_image := popped.image
    let new_image := if new_image.size ≠ c1.size then new_image.scaled c1.size else new_image
    c1.set_image new_image

/-- Embedding of Canvas.redo (pydemo/util/canvas.py, lines 69-77): no-op on
an empty redo stack; otherwise the source saves an undo state without
clearing the redo stack, pops the last redo entry into the local name
image, and then evaluates image.size() — but the popped value is an
UndoState, which defines only the attributes image and timestamp, so the
attribute lookup raises AttributeError with the already-performed stack
mutations left in place. -/
def redo (c : Canvas) (now : ℚ) : PyResult Canvas :=
  match c.redo_stack.getLast? with
  | none => .ok c
  | some _ =>
    let c1 := c.save_undo_state false now
    let c2 : Canvas := { c1 with redo_stack := c1.redo_stack.dropLast }
    .raised "AttributeError" c2

/-- Embedding of Canvas.undo_count (pydemo/util/canvas.py, lines 80-82). -/
def undo_count (c : Canvas) : ℕ := c.undo_stack.length

/-- Embedding of Canvas.redo_count (pydemo/util/canvas.py, lines 85-87):
the source returns len(self._undo_stack), reading the undo stack rather
than the redo stack. -/
def redo_count (c : Canvas) : ℕ := c.undo_stack.length

/-- Embedding of Canvas.last_undo_timestamp (pydemo/util/canvas.py, lines
90-94): none when undo_count() is zero, else the timestamp of the last
undo entry, where a negative Python index on an empty list would raise
IndexError. -/
def last_undo_timestamp (c : Canvas) : Except String (Option ℚ) :=
  if c.undo_count = 0 then .ok none
  else
    match c.undo_stack.getLast? with
    | some st => .ok (some st.timestamp)
    | none => .error "IndexError"

/-- Embedding of Canvas.last_redo_timestamp (pydemo/util/canvas.py, lines
97-101): none when redo_count() is zero — but redo_count() reads the undo
stack, so when the undo stack is non-empty and the redo stack is empty the
source evaluates self._redo_stack[-1] on an empty list, raising
IndexError. -/
def last_redo_timestamp (c : Canvas) : Except String (Option ℚ) :=
  if c.redo_count = 0 then .ok none
  else
    match c.redo_stack.getLast? with
    | some st => .ok (some st.timestamp)
    | none => .error "IndexError"

/-- Embedding of Canvas.clear_undo_history (pydemo/util/canvas.py, lines
104-107). -/
def clear_undo_history (c : Canvas) : Canvas :=
  { c with undo_stack := [], redo_stack := [] }

/-- Embedding of the history effect of Canvas.start_stroke
(pydemo/util/canvas.py, lines 149-155): _save_undo_state with the default
clear_redo_stack=True. -/
def start_stroke (c : Canvas) (now : ℚ) : Canvas := c.save_undo_state true now

/-- Embedding of the history effect of Canvas.fill (pydemo/util/canvas.py,
lines 158-163). -/
def fill (c : Canvas) (now : ℚ) : Canvas := c.save_undo_state true now

/-- Embedding of the history effect of Canvas.clear (pydemo/util/canvas.py,
lines 166-171). -/
def clear (c : Canvas) (now : ℚ) : Canvas := c.save_undo_state true now

end Canvas

/-- One edit step for a saved-state sequence: the content written after the
snapshot, the clearRedo flag passed to _save_undo_state, and the wall-clock
time of the snapshot. -/
def EditStep : Type := Img × Bool × ℚ

/-- Run a sequence of edits against a canvas: each step snapshots the
current content through _save_undo_state and then mutates the content,
the calling pattern the source requires of start_stroke, fill and clear. -/
def runSaves (c : Canvas) : List EditStep → Canvas
  | [] => c
  | e :: rest => runSaves ((c.save_undo_state e.2.1 e.2.2).set_image e.1) rest

/-- The snapshots a sequence of edits pushes onto the undo stack, oldest
first: each step captures the content current at that step. -/
def pushedStates (c : Canvas) : List EditStep → List UndoState
  | [] => []
  | e :: rest => ⟨c.image, e.2.2⟩ :: pushedStates ((c.save_undo_state e.2.1 e.2.2).set_image e.1) rest

/-- Taking the last n entries, appending, and again taking the last n
entries is the same as taking the last n entries of the whole: per-push
truncation of the undo stack composes to a single overall truncation. -/
lemma rtake_rtake_append {α : Type} (n : ℕ) (l m : List α) :
    List.rtake (List.rtake l n ++ m) n = List.rtake (l ++ m) n := by
  simp only [List.rtake_eq_reverse_take_reverse, List.reverse_append, List.reverse_reverse,
    List.take_append_eq_append_take, List.take_take, List.length_reverse]
  rw [min_eq_left (Nat.sub_le n m.length)]

/-- Taking the last n entries of a list of length at most n is the
identity. -/
lemma rtake_of_length_le {α : Type} {n : ℕ} {l : List α} (h : l.length ≤ n) :
    List.rtake l n = l := by
  rw [List.rtake, Nat.sub_eq_zero_of_le h, List.drop_zero]

/-- The length of the last-n-entries truncation. -/
lemma length_rtake {α : Type} (n : ℕ) (l : List α) :
    (List.rtake l n).length = min n l.length := by
  rw [List.rtake, List.length_drop]
  omega

/-- A single _save_undo_state keeps exactly the last MAX_UNDO entries of
the extended undo stack. -/
lemma save_undo_state_stack (c : Canvas) (b : Bool) (now : ℚ) :
    (c.save_undo_state b now).undo_stack =
      List.rtake (c.undo_stack ++ [⟨c.image, now⟩]) Canvas.MAX_UNDO := by
  simp only [Canvas.save_undo_state, Canvas.get_qimage, List.rtake]
  split
  · rfl
  · next h => rw [Nat.sub_eq_zero_of_le (Nat.not_lt.mp h), List.drop_zero]

/-- After any sequence of snapshot-then-edit steps starting from an undo
stack already within the bound, the undo stack is the last MAX_UNDO
entries of the initial stack followed by every pushed snapshot in push
order. -/
lemma runSaves_undo_stack (edits : List EditStep) : ∀ c : Canvas,
    c.undo_stack.length ≤ Canvas.MAX_UNDO →
    (runSaves c edits).undo_stack =
      List.rtake (c.undo_stack ++ pushedStates c edits) Canvas.MAX_UNDO := by
  induction edits with
  | nil =>
    intro c hc
    simp only [runSaves, pushedStates, List.append_nil]
    exact (rtake_of_length_le hc).symm
  | cons e rest ih =>
    intro c hc
    have hstep : (runSaves c (e :: rest)) =
        runSaves ((c.save_undo_state e.2.1 e.2.2).set_image e.1) rest := rfl
    set c1 : Canvas := (c.save_undo_state e.2.1 e.2.2).set_image e.1 with hc1
    have hc1stack : c1.undo_stack =
        List.rtake (c.undo_stack ++ [⟨c.image, e.2.2⟩]) Canvas.MAX_UNDO := by
      rw [hc1]
      exact save_undo_state_stack c e.2.1 e.2.2
    have hc1len : c1.undo_stack.length ≤ Canvas.MAX_UNDO := by
      rw [hc1stack, length_rtake]
      omega
    have hpush : pushedStates c (e :: rest) = ⟨c.image, e.2.2⟩ :: pushedStates c1 rest := rfl
    rw [hstep, ih c1 hc1len, hc1stack, rtake_rtake_append, hpush, List.append_assoc]
    rfl

/-- Each edit step pushes exactly one snapshot. -/
lemma length_pushedStates (edits : List EditStep) : ∀ c : Canvas,
    (pushedStates c edits).length = edits.length := by
  induction edits with
  | nil => intro c; rfl
  | cons e rest ih =>
    intro c
    simp only [pushedStates, List.length_cons, ih]

/-- Embedding of FixedAspectGraphicsView.scene_to_widget_coords
(pydemo/util/fixed_aspect_graphics_view.py, lines 71-78): the content-space
point is scaled by content_rect extent over content_size and offset by the
content_rect corner, in exact arithmetic standing for Python floats. -/
def scene_to_widget_coords (content_rect : QRectI) (content_size : QSizeI)
    (p : ℤ × ℤ) : ℚ × ℚ :=
  let x_scale : ℚ := (content_rect.w : ℚ) / (content_size.w : ℚ)
  let y_scale : ℚ := (content_rect.h : ℚ) / (content_size.h : ℚ)
  ((content_rect.x : ℚ) + (p.1 : ℚ) * x_scale, (content_rect.y : ℚ) + (p.2 : ℚ) * y_scale)

/-- Modelled from the spec: the source widget_to_scene_coords
(pydemo/util/fixed_aspect_graphics_view.py, lines 66-68) delegates to Qt's
QGraphicsView.mapToScene, library code not present in this repository; the
spec describes containerToContent as inverse-mapping a container point to
content coordinates using the current placement's offset and scale
factors. -/
def widget_to_scene_coords (content_rect : QRectI) (content_size : QSizeI)
    (q : ℚ × ℚ) : ℚ × ℚ :=
  let x_scale : ℚ := (content_rect.w : ℚ) / (content_size.w : ℚ)
  let y_scale : ℚ := (content_rect.h : ℚ) / (content_size.h : ℚ)
  ((q.1 - (content_rect.x : ℚ)) / x_scale, (q.2 - (content_rect.y : ℚ)) / y_scale)

/-- Embedding of the placement computed in FixedAspectGraphicsView.resizeEvent
(pydemo/util/fixed_aspect_graphics_view.py, lines 158-159) together with
_border_size (lines 169-170): the border is min(width, height) // 40 + 1
with Python floor division, and the content rectangle is
get_scaled_placement over the widget rectangle anchored at the origin. -/
def resize_event_content_rect (width height : ℤ) (content_size : QSizeI) : QRectI :=
  let border_size := Int.ediv (min width height) 40 + 1
  get_scaled_placement ⟨0, 0, width, height⟩ content_size border_size

/-- An RGBA color value, modelling PyQt5's QColor. -/
structure QColorM where
  r : ℤ
  g : ℤ
  b : ℤ
  a : ℤ
deriving DecidableEq, Repr

/-- A QImage as seen by get_color_at_point: pixel dimensions plus the color
returned by QImage.pixelColor at each coordinate. -/
structure QImageM where
  width : ℕ
  height : ℕ
  pixels : ℤ → ℤ → QColorM

/-- QImage.rect(): the bounding rectangle anchored at the origin. -/
def QImageM.rect (img : QImageM) : QRectI := ⟨0, 0, (img.width : ℤ), (img.height : ℤ)⟩

/-- QImage.pixelColor at integer coordinates. -/
def QImageM.pixelColor (img : QImageM) (px py : ℤ) : QColorM := img.pixels px py

/-- Point membership for an integer rectangle, following Qt's
QRect::contains(QPoint, proper=false): edges are inclusive, the right and
bottom edges sit at x + w - 1 and y + h - 1, and a reversed rectangle
swaps the edge roles. -/
def qrect_contains (r : QRectI) (px py : ℤ) : Bool :=
  let x2 := r.x + r.w - 1
  let y2 := r.y + r.h - 1
  let lx := if x2 < r.x - 1 then x2 else r.x
  let rx := if x2 < r.x - 1 then r.x else x2
  let ly := if y2 < r.y - 1 then y2 else r.y
  let ry := if y2 < r.y - 1 then r.y else y2
  decide (lx ≤ px) && decide (px ≤ rx) && decide (ly ≤ py) && decide (py ≤ ry)

/-- Embedding of Canvas.get_color_at_point (pydemo/util/canvas.py, lines
141-146): the pixel color when the image rectangle contains the point, and
the completely transparent QColor(0, 0, 0, 0) otherwise. -/
def get_color_at_point (img : QImageM) (px py : ℤ) : QColorM :=
  if qrect_contains img.rect px py then img.pixelColor px py else ⟨0, 0, 0, 0⟩

/-- Qt rectangle containment over a nonnegative image rectangle anchored at
the origin is exactly the half-open bound check on both coordinates. -/
lemma qrect_contains_image_rect (img : QImageM) (px py : ℤ) :
    qrect_contains img.rect px py = true ↔
      (0 ≤ px ∧ px < (img.width : ℤ) ∧ 0 ≤ py ∧ py < (img.height : ℤ)) := by
  have hw : (0 : ℤ) ≤ (img.width : ℤ) := Int.ofNat_nonneg img.width
  have hh : (0 : ℤ) ≤ (img.height : ℤ) := Int.ofNat_nonneg img.height
  simp only [qrect_contains, QImageM.rect, Bool.and_eq_true, decide_eq_true_eq]
  rw [if_neg (by omega), if_neg (by omega), if_neg (by omega), if_neg (by omega)]
  omega

/-
Claim theorems.
-/

/-- C1: the claim that undo() immediately followed by redo(), with no
intervening edit, restores content byte-identical to the pre-undo content
fails on the source: redo() pops an UndoState into the local name image and
evaluates image.size(), an attribute UndoState does not define, so the call
raises AttributeError and the canvas is left holding the undone content
(here the image with data [2]) instead of the pre-undo content (data [1]). -/
theorem undo_then_redo_raises :
    Canvas.redo (Canvas.undo ⟨⟨1, 1, [1]⟩, [⟨⟨1, 1, [2]⟩, 0⟩], []⟩ 1) 2 =
      PyResult.raised "AttributeError" ⟨⟨1, 1, [2]⟩, [⟨⟨1, 1, [2]⟩, 2⟩], []⟩ ∧
    (Canvas.undo ⟨⟨1, 1, [1]⟩, [⟨⟨1, 1, [2]⟩, 0⟩], []⟩ 1).image ≠ (⟨1, 1, [1]⟩ : Img) := by
  decide

/-- C2: for every sequence of snapshot-then-edit steps starting from an
empty history, the undo depth never exceeds MAX_UNDO, the surviving stack
is exactly the most-recently pushed MAX_UNDO snapshots in push order, and
once more than MAX_UNDO snapshots were pushed the depth is exactly
MAX_UNDO. -/
theorem saves_bounded_evict_oldest (c : Canvas) (edits : List EditStep)
    (hc : c.undo_stack = []) :
    (runSaves c edits).undo_count ≤ Canvas.MAX_UNDO ∧
    (runSaves c edits).undo_stack = List.rtake (pushedStates c edits) Canvas.MAX_UNDO ∧
    (Canvas.MAX_UNDO < edits.length → (runSaves c edits).undo_count = Canvas.MAX_UNDO) := by
  have h0 : c.undo_stack.length ≤ Canvas.MAX_UNDO := by
    rw [hc]
    exact Nat.zero_le _
  have h := runSaves_undo_stack edits c h0
  rw [hc, List.nil_append] at h
  refine ⟨?_, h, ?_⟩
  · rw [Canvas.undo_count, h, length_rtake]
    omega
  · intro hlen
    rw [Canvas.undo_count, h, length_rtake, length_pushedStates]
    omega

/-- Witness for C2: a concrete run of 31 edits from an empty history. -/
theorem saves_bounded_evict_oldest_witness :
    (runSaves ⟨⟨1, 1, [0]⟩, [], []⟩
        ((List.range 31).map fun k => ((⟨1, 1, [k + 1]⟩ : Img), true, (0 : ℚ)))).undo_count ≤
      Canvas.MAX_UNDO ∧
    (runSaves ⟨⟨1, 1, [0]⟩, [], []⟩
        ((List.range 31).map fun k => ((⟨1, 1, [k + 1]⟩ : Img), true, (0 : ℚ)))).undo_stack =
      List.rtake (pushedStates ⟨⟨1, 1, [0]⟩, [], []⟩
        ((List.range 31).map fun k => ((⟨1, 1, [k + 1]⟩ : Img), true, (0 : ℚ)))) Canvas.MAX_UNDO ∧
    (Canvas.MAX_UNDO <
        ((List.range 31).map fun k => ((⟨1, 1, [k + 1]⟩ : Img), true, (0 : ℚ))).length →
      (runSaves ⟨⟨1, 1, [0]⟩, [], []⟩
          ((List.range 31).map fun k => ((⟨1, 1, [k + 1]⟩ : Img), true, (0 : ℚ)))).undo_count =
        Canvas.MAX_UNDO) :=
  saves_bounded_evict_oldest ⟨⟨1, 1, [0]⟩, [], []⟩ _ rfl

set_option maxRecDepth 40000 in
/-- C3: after exactly MAX_UNDO + 5 = 35 saves with no undos the undo depth
is MAX_UNDO, and one undo() leaves undoCount() = MAX_UNDO - 1 with exactly
one redo entry, as the claim states; but redoCount() then returns
MAX_UNDO - 1 rather than the redo depth 1, because the source reads
len(self._undo_stack). -/
theorem redo_count_reads_wrong_stack :
    (runSaves ⟨⟨1, 1, [99]⟩, [], []⟩
        ((List.range 35).map fun k => ((⟨1, 1, [k]⟩ : Img), true, (0 : ℚ)))).undo_count =
      Canvas.MAX_UNDO ∧
    (Canvas.undo (runSaves ⟨⟨1, 1, [99]⟩, [], []⟩
        ((List.range 35).map fun k => ((⟨1, 1, [k]⟩ : Img), true, (0 : ℚ)))) 0).undo_count =
      Canvas.MAX_UNDO - 1 ∧
    (Canvas.undo (runSaves ⟨⟨1, 1, [99]⟩, [], []⟩
        ((List.range 35).map fun k => ((⟨1, 1, [k]⟩ : Img), true, (0 : ℚ)))) 0).redo_stack.length =
      1 ∧
    (Canvas.undo (runSaves ⟨⟨1, 1, [99]⟩, [], []⟩
        ((List.range 35).map fun k => ((⟨1, 1, [k]⟩ : Img), true, (0 : ℚ)))) 0).redo_count =
      Canvas.MAX_UNDO - 1 := by
  refine ⟨?_, ?_, ?_, ?_⟩ <;> rfl

/-- C4: placing 1024x1024 content in a (0,0,500,700) container with margin
2 yields the rectangle (2, 102, 496, 496): scale is min(496/1024,
696/1024), the placed size is 496 by 496, the horizontal gaps inside the
margin-reduced container are equal, and the vertical gaps inside the
696-pixel margin-reduced height are equal. -/
theorem placement_1024_in_500x700 :
    get_scaled_placement ⟨0, 0, 500, 700⟩ ⟨1024, 1024⟩ 2 = ⟨2, 102, 496, 496⟩ ∧
    (2 : ℤ) - (0 + 2) = (0 + 500 - 2) - (2 + 496) ∧
    (102 : ℤ) - (0 + 2) = (0 + 700 - 2) - (102 + 496) := by
  refine ⟨?_, by norm_num, by norm_num⟩
  simp only [get_scaled_placement, pyInt]
  norm_num [min_def]

/-- C5: the claim that no history operation raises during normal use fails
on the source: after a single start_stroke() on a fresh canvas, a
reachable state with one undo entry and an empty redo stack,
last_redo_timestamp() raises IndexError, because redo_count() reads the
undo stack and self._redo_stack[-1] then indexes an empty list. -/
theorem last_redo_timestamp_raises :
    (Canvas.start_stroke ⟨⟨1, 1, [0]⟩, [], []⟩ 0).last_redo_timestamp =
      Except.error "IndexError" ∧
    (Canvas.start_stroke ⟨⟨1, 1, [0]⟩, [], []⟩ 0).redo_stack = [] :=
  ⟨rfl, rfl⟩

/-- C6: undo() on an empty undo stack and redo() on an empty redo stack are
each silent no-ops: the entire canvas state, content and both stacks, is
returned unchanged and nothing is raised. -/
theorem empty_stack_noops (c : Canvas) (now : ℚ) :
    (c.undo_stack = [] → c.undo now = c) ∧
    (c.redo_stack = [] → c.redo now = PyResult.ok c) := by
  constructor
  · intro h
    unfold Canvas.undo
    rw [h]
    rfl
  · intro h
    unfold Canvas.redo
    rw [h]
    rfl

/-- Witness for C6 on a concrete canvas with empty stacks. -/
theorem empty_stack_noops_witness :
    Canvas.undo ⟨⟨1, 1, [5]⟩, [], []⟩ 3 = ⟨⟨1, 1, [5]⟩, [], []⟩ ∧
    Canvas.redo ⟨⟨1, 1, [5]⟩, [], []⟩ 3 = PyResult.ok ⟨⟨1, 1, [5]⟩, [], []⟩ :=
  ⟨(empty_stack_noops ⟨⟨1, 1, [5]⟩, [], []⟩ 3).1 rfl,
   (empty_stack_noops ⟨⟨1, 1, [5]⟩, [], []⟩ 3).2 rfl⟩

/-- C7: every _save_undo_state call with clearRedo=true leaves the redo
stack empty whatever it held before, and the history effects of
start_stroke, fill and clear, which all use the default clearRedo=true,
clear the redo stack. -/
theorem save_with_clear_empties_redo (c : Canvas) (now : ℚ) :
    (c.save_undo_state true now).redo_stack = [] ∧
    (c.start_stroke now).redo_stack = [] ∧
    (c.fill now).redo_stack = [] ∧
    (c.clear now).redo_stack = [] :=
  ⟨rfl, rfl, rfl, rfl⟩

/-- C8: mapping a content point through contentToContainer and back through
containerToContent, using the placement's offset and scale factors, yields
the point exactly, hence within the claimed tolerance of one pixel,
whenever the placement rectangle and the content size are non-degenerate. -/
theorem roundtrip_within_one_pixel (cr : QRectI) (cs : QSizeI) (p : ℤ × ℤ)
    (hcrw : (cr.w : ℚ) ≠ 0) (hcrh : (cr.h : ℚ) ≠ 0)
    (hcsw : (cs.w : ℚ) ≠ 0) (hcsh : (cs.h : ℚ) ≠ 0)
    (hpx : 0 ≤ p.1 ∧ p.1 ≤ cs.w) (hpy : 0 ≤ p.2 ∧ p.2 ≤ cs.h) :
    |(widget_to_scene_coords cr cs (scene_to_widget_coords cr cs p)).1 - (p.1 : ℚ)| ≤ 1 ∧
    |(widget_to_scene_coords cr cs (scene_to_widget_coords cr cs p)).2 - (p.2 : ℚ)| ≤ 1 := by
  have hx : (widget_to_scene_coords cr cs (scene_to_widget_coords cr cs p)).1 = (p.1 : ℚ) := by
    simp only [widget_to_scene_coords, scene_to_widget_coords, add_sub_cancel_left]
    exact mul_div_cancel_right₀ _ (div_ne_zero hcrw hcsw)
  have hy : (widget_to_scene_coords cr cs (scene_to_widget_coords cr cs p)).2 = (p.2 : ℚ) := by
    simp only [widget_to_scene_coords, scene_to_widget_coords, add_sub_cancel_left]
    exact mul_div_cancel_right₀ _ (div_ne_zero hcrh hcsh)
  rw [hx, hy]
  simp

/-- The placement resizeEvent derives for a 500x700 widget showing
1024x1024 content: the border is 500 // 40 + 1 = 13 and the content
rectangle is (13, 113, 474, 474). -/
lemma resize_event_content_rect_500_700 :
    resize_event_content_rect 500 700 ⟨1024, 1024⟩ = ⟨13, 113, 474, 474⟩ := by
  have hborder : Int.ediv (min (500 : ℤ) 700) 40 + 1 = 13 := by decide
  show get_scaled_placement ⟨0, 0, 500, 700⟩ ⟨1024, 1024⟩ (Int.ediv (min (500 : ℤ) 700) 40 + 1) =
    ⟨13, 113, 474, 474⟩
  rw [hborder]
  simp only [get_scaled_placement, pyInt]
  norm_num [min_def]

/-- Witness for C8 at the placement resizeEvent computes for a 500x700
widget with 1024x1024 content and the content point (100, 200). -/
theorem roundtrip_within_one_pixel_witness :
    |(widget_to_scene_coords (resize_event_content_rect 500 700 ⟨1024, 1024⟩) ⟨1024, 1024⟩
        (scene_to_widget_coords (resize_event_content_rect 500 700 ⟨1024, 1024⟩) ⟨1024, 1024⟩
          (100, 200))).1 - ((100 : ℤ) : ℚ)| ≤ 1 ∧
    |(widget_to_scene_coords (resize_event_content_rect 500 700 ⟨1024, 1024⟩) ⟨1024, 1024⟩
        (scene_to_widget_coords (resize_event_content_rect 500 700 ⟨1024, 1024⟩) ⟨1024, 1024⟩
          (100, 200))).2 - ((200 : ℤ) : ℚ)| ≤ 1 := by
  refine roundtrip_within_one_pixel (resize_event_content_rect 500 700 ⟨1024, 1024⟩)
    ⟨1024, 1024⟩ (100, 200) ?_ ?_ ?_ ?_ ⟨by decide, by decide⟩ ⟨by decide, by decide⟩
  · rw [resize_event_content_rect_500_700]
    norm_num
  · rw [resize_event_content_rect_500_700]
    norm_num
  · norm_num
  · norm_num

/-- C9: the claim that the placed rectangle is contained in the container
for every margin fails as stated: with container (0,0,10,10), content 1x1
and margin -5 the placement is (-5,-5,20,20), which extends past every
container edge. -/
theorem placement_escapes_container :
    get_scaled_placement ⟨0, 0, 10, 10⟩ ⟨1, 1⟩ (-5) = ⟨-5, -5, 20, 20⟩ ∧
    ¬ rect_in_rect ⟨-5, -5, 20, 20⟩ ⟨0, 0, 10, 10⟩ := by
  constructor
  · simp only [get_scaled_placement, pyInt]
    norm_num [min_def]
  · decide

/-- C9 (amended): get_scaled_placement is a total function that never
raises, zero-area content included since a zero dimension enters the scale
denominator as max(dim, 1) = 1; and for every container, nonnegative
content size, and nonnegative margin no larger than half of either
container dimension, the returned rectangle is fully contained within the
container bounds. -/
theorem placement_contained (container : QRectI) (inner : QSizeI) (margin : ℤ)
    (hm : 0 ≤ margin) (hw : 2 * margin ≤ container.w) (hh : 2 * margin ≤ container.h)
    (hiw : 0 ≤ inner.w) (hih : 0 ≤ inner.h) :
    rect_in_rect (get_scaled_placement container inner margin) container :=
  get_scaled_placement_contained container inner margin hm hw hh hiw hih

/-- Witness for C9 (amended) with zero-area content. -/
theorem placement_contained_witness :
    rect_in_rect (get_scaled_placement ⟨0, 0, 10, 10⟩ ⟨0, 0⟩ 1) ⟨0, 0, 10, 10⟩ :=
  placement_contained ⟨0, 0, 10, 10⟩ ⟨0, 0⟩ 1 (by decide) (by decide) (by decide)
    (by decide) (by decide)

/-- C10: get_color_at_point returns the completely transparent
QColor(0,0,0,0) for every point outside the image bounds, without raising
or reading out of bounds, and the image's pixel color for every point
inside the bounds. -/
theorem color_at_point_in_and_out_of_bounds (img : QImageM) (px py : ℤ) :
    (¬ (0 ≤ px ∧ px < (img.width : ℤ) ∧ 0 ≤ py ∧ py < (img.height : ℤ)) →
      get_color_at_point img px py = ⟨0, 0, 0, 0⟩) ∧
    ((0 ≤ px ∧ px < (img.width : ℤ) ∧ 0 ≤ py ∧ py < (img.height : ℤ)) →
      get_color_at_point img px py = img.pixels px py) := by
  constructor
  · intro h
    have hcontains : ¬ (qrect_contains img.rect px py = true) := fun hct =>
      h ((qrect_contains_image_rect img px py).mp hct)
    simp only [get_color_at_point]
    rw [if_neg hcontains]
  · intro h
    simp only [get_color_at_point, QImageM.pixelColor]
    rw [if_pos ((qrect_contains_image_rect img px py).mpr h)]

/-- Witness for C10 on a concrete 2x2 image, at one point outside and one
point inside the bounds. -/
theorem color_at_point_witness :
    get_color_at_point ⟨2, 2, fun x y => ⟨x, y, 5, 255⟩⟩ 5 0 = ⟨0, 0, 0, 0⟩ ∧
    get_color_at_point ⟨2, 2, fun x y => ⟨x, y, 5, 255⟩⟩ 1 1 = ⟨1, 1, 5, 255⟩ :=
  ⟨(color_at_point_in_and_out_of_bounds ⟨2, 2, fun x y => ⟨x, y, 5, 255⟩⟩ 5 0).1 (by decide),
   (color_at_point_in_and_out_of_bounds ⟨2, 2, fun x y => ⟨x, y, 5, 255⟩⟩ 1 1).2 (by decide)⟩

end PyDemo
